import Mathlib

/-!
Verification development for the zabbix-auto-config reconciliation pipeline.

Each definition below is a shallow embedding of a function of the repository
(file and line references in the doc comments).  Python sets are modelled as
`Finset`, Python dicts as association lists with unique keys (Python dict
equality is order-insensitive, which is made explicit where it matters),
machine integers as `Nat`, and fallible code as `Option`/`Except`.
-/

namespace Zac

/-- Model of Python `s.split(sep)` for a one-character separator, over the
character list of the string. -/
def pySplitChar (sep : Char) (s : List Char) : List (List Char) :=
  s.foldr (fun c acc => if c = sep then [] :: acc else (c :: acc.headI) :: acc.tail) [[]]

/-- Model of Python `s.strip()`: drop whitespace from both ends. -/
def pyStrip (s : String) : String :=
  String.mk (((s.toList.dropWhile Char.isWhitespace).reverse.dropWhile Char.isWhitespace).reverse)

/-- Model of Python `s.startswith(pre)`. -/
def pyStartsWith (pre s : String) : Bool :=
  pre.toList.isPrefixOf s.toList

/-- Model of `list(dict.fromkeys(values))` (src/zabbix_auto_config/utils.py:94):
keep the first occurrence of each element, preserving order. -/
def dedupKeepFirst (seen : List String) : List String → List String
  | [] => []
  | x :: xs =>
      if x ∈ seen then dedupKeepFirst seen xs
      else x :: dedupKeepFirst (x :: seen) xs

/-! ## Tag conversion (src/zabbix_auto_config/utils.py:40-46) -/

/-- A Zabbix tag dict `{"tag": ..., "value": ...}`.  Python dicts preserve
insertion order, so `tuple(tag.values())` enumerates `(tag, value)`. -/
structure ZabbixTag where
  tag : String
  value : String
deriving DecidableEq, Repr

/-- Embedding of `zac_tags2zabbix_tags` (utils.py:44-46): build the list of
Zabbix tag dicts from an enumeration of the ZAC tag set. -/
def zac_tags2zabbix_tags (zacTags : List (String × String)) : List ZabbixTag :=
  zacTags.map (fun t => { tag := t.1, value := t.2 })

/-- Embedding of `zabbix_tags2zac_tags` (utils.py:40-41): collect
`tuple(tag.values())` for each tag dict into a set. -/
def zabbix_tags2zac_tags (zabbixTags : List ZabbixTag) : Finset (String × String) :=
  (zabbixTags.map (fun t => (t.tag, t.value))).toFinset

/-! ## Map file parsing (src/zabbix_auto_config/utils.py:49-102) -/

/-- Embedding of the per-line logic of `read_map_file` (utils.py:53-80).
Returns `none` when the (stripped) line is skipped: blank lines, comments, and
the three `ValueError` cases (no colon, empty key, empty value list), all of
which the source catches and skips with a warning.  `line.split(":", 1)` is
modelled by spanning up to the first colon. -/
def parseMapLine (rawLine : String) : Option (String × List String) :=
  let line := pyStrip rawLine
  if line = "" ∨ pyStartsWith "#" line then none
  else
    match line.toList.span (fun c => c ≠ ':') with
    | (_, []) => none
    | (keyPart, _ :: valuePart) =>
        let key := pyStrip (String.mk keyPart)
        if key = "" then none
        else
          let values := ((pySplitChar ',' valuePart).map
            (fun l => pyStrip (String.mk l))).filter (fun s => s ≠ "")
          if values = [] then none
          else some (key, values)

/-- Embedding of the duplicate-key branch of `read_map_file` (utils.py:82-90):
extend the existing entry if the key is present, otherwise append a new one. -/
def insertMapEntry (m : List (String × List String)) (key : String)
    (values : List String) : List (String × List String) :=
  match m with
  | [] => [(key, values)]
  | (k, vs) :: rest =>
      if k = key then (k, vs ++ values) :: rest
      else (k, vs) :: insertMapEntry rest key values

/-- Embedding of `read_map_file` (utils.py:49-102) over the list of lines of
the file: parse each line, accumulate entries, then deduplicate each value
list keeping first occurrences. -/
def read_map_file (lines : List String) : List (String × List String) :=
  let raw := lines.foldl
    (fun m line =>
      match parseMapLine line with
      | none => m
      | some (k, vs) => insertMapEntry m k vs)
    []
  raw.map (fun kv => (kv.1, dedupKeepFirst [] kv.2))

/-! ## Semantic version parsing (src/zabbix_auto_config/db/migration.py:54-61) -/

/-- Embedding of Python `int(s)` restricted to the non-negative decimal
numerals this code feeds it: `none` models the uncaught `ValueError`. -/
def pyInt (s : String) : Option Nat :=
  if s.toList = [] then none
  else if s.toList.all Char.isDigit then
    some (s.toList.foldl (fun n c => n * 10 + (c.toNat - 48)) 0)
  else none

/-- Embedding of `str_to_semver` (migration.py:54-61).  Splits on `"."`,
requires exactly three non-empty components, then strips every non-digit
character from the patch component before converting.  `Except.error` models
the raised exception. -/
def str_to_semver (version : String) : Except String (Nat × Nat × Nat) :=
  let res := (pySplitChar '.' version.toList).map String.mk
  if ¬ (res.length = 3 ∧ res.all (fun v => v ≠ "")) then
    Except.error "invalid semantic version"
  else
    match res with
    | [major, minor, patch] =>
        let patchDigits := String.mk (patch.toList.filter Char.isDigit)
        match pyInt major, pyInt minor, pyInt patchDigits with
        | some ma, some mi, some pa => Except.ok (ma, mi, pa)
        | _, _, _ => Except.error "invalid literal for int"
    | _ => Except.error "invalid semantic version"

/-! ## Host model (src/zabbix_auto_config/models.py:56-143) -/

/-- Embedding of `Interface` (models.py:56-71).  `details` values are modelled
as strings; the claims never inspect them. -/
structure Interface where
  details : List (String × String)
  endpoint : String
  port : String
  type : Nat
deriving DecidableEq, Repr

/-- Embedding of `Host` (models.py:74-103).  Python sets become `Finset`
(Python set equality is order-insensitive); `inventory` is the insertion-ordered
association list of a Python dict; `macros` is always `None` in the source and
is omitted. -/
structure Host where
  enabled : Bool
  hostname : String
  importance : Option Nat
  interfaces : List Interface
  inventory : List (String × String)
  properties : Finset String
  proxy_pattern : Option String
  siteadmins : Finset String
  sources : Finset String
  tags : Finset (String × String)
deriving DecidableEq

/-- Embedding of `sorted(self.interfaces, key=lambda interface: interface.type)`
(models.py:128). -/
def sortInterfaces (l : List Interface) : List Interface :=
  l.insertionSort (fun a b => a.type ≤ b.type)

/-- Embedding of the importance merge (models.py:119-120): Python's truthiness
filter `if importance` drops both `None` and `0`, then `min` is taken when the
filtered list is non-empty. -/
def mergeImportance (a b : Option Nat) : Option Nat :=
  let importances := (([a, b].filterMap id).filter (fun k => k ≠ 0))
  match importances with
  | [] => none
  | x :: xs => some (xs.foldl min x)

/-- Embedding of the proxy-pattern merge (models.py:136-142): filter the two
patterns by truthiness (dropping `None` and the empty string), take the
lexicographically smallest when more than one survives, keep the current value
unchanged when none survives. -/
def mergeProxyPattern (a b : Option String) : Option String :=
  let proxy_patterns := (([a, b].filterMap id).filter (fun s => s ≠ ""))
  match proxy_patterns with
  | [] => a
  | [p] => some p
  | p :: ps => some ((p :: ps).foldl min p)

/-- Embedding of the interface merge (models.py:122-128): keep all of the
current interfaces, append those of the other host whose `type` is new, then
sort by `type`. -/
def mergeInterfaces (self other : List Interface) : List Interface :=
  let selfTypes := self.map (fun i => i.type)
  sortInterfaces (self ++ other.filter (fun i => i.type ∉ selfTypes))

/-- Embedding of the inventory merge (models.py:130-134): for each key of the
other host, keep the current value when the key is present (same value writes
are invisible, conflicting values are kept with a warning), otherwise append. -/
def mergeInventory (self other : List (String × String)) : List (String × String) :=
  other.foldl
    (fun acc kv =>
      match acc.lookup kv.1 with
      | some _ => acc
      | none => acc ++ [kv])
    self

/-- Embedding of `Host.merge` (models.py:105-143), functionally: the result is
the state of `self` after `self.merge(other)` returns.  `self.hostname` is
never assigned. -/
def Host.merge (self other : Host) : Host :=
  { enabled := self.enabled || other.enabled
    hostname := self.hostname
    properties := self.properties ∪ other.properties
    siteadmins := self.siteadmins ∪ other.siteadmins
    sources := self.sources ∪ other.sources
    tags := self.tags ∪ other.tags
    importance := mergeImportance self.importance other.importance
    interfaces := mergeInterfaces self.interfaces other.interfaces
    inventory := mergeInventory self.inventory other.inventory
    proxy_pattern := mergeProxyPattern self.proxy_pattern other.proxy_pattern }

/-- Folding `Host.merge` over a non-empty list of hosts, left to right, as the
source merger does with the per-source rows of one hostname. -/
def mergeAll : List Host → Option Host
  | [] => none
  | h :: t => some (t.foldl Host.merge h)

/-! ## Zabbix host reconciler (src/za_hub/processing.py:308-386) -/

/-- A Zabbix host as fetched by `api.host.get` in `work`: its name and the
names of its host groups. -/
structure ZHost where
  host : String
  groups : List String
deriving DecidableEq, Repr

/-- A Zabbix API mutation performed by the host reconciler: `host.update` with
`status=1` (disable), `host.update` with `status=0` (enable an existing host),
or `host.create`. -/
inductive HostCall where
  | updateDisable (hostname : String)
  | updateEnable (hostname : String)
  | create (hostname : String)
deriving DecidableEq, Repr

/-- Embedding of the managed/manual partition (processing.py:355-360): a host
is manual iff it is a member of `All-manual-hosts`. -/
def zabbixManagedHosts (zabbixHosts : List ZHost) : List ZHost :=
  zabbixHosts.filter (fun h => "All-manual-hosts" ∉ h.groups)

/-- Embedding of `hostnames_to_remove = list(zabbix_hostnames - db_hostnames)`
(processing.py:366): the distinct managed Zabbix hostnames not in the DB. -/
def hostnamesToRemove (dbHostnames : List String) (zabbixHosts : List ZHost) : List String :=
  (dedupKeepFirst [] ((zabbixManagedHosts zabbixHosts).map (fun h => h.host))).filter
    (fun n => n ∉ dbHostnames)

/-- Embedding of `hostnames_to_add = list(db_hostnames - zabbix_hostnames)`
(processing.py:367): the distinct DB hostnames not among managed Zabbix
hostnames. -/
def hostnamesToAdd (dbHostnames : List String) (zabbixHosts : List ZHost) : List String :=
  (dedupKeepFirst [] dbHostnames).filter
    (fun n => n ∉ (zabbixManagedHosts zabbixHosts).map (fun h => h.host))

/-- Embedding of `ZabbixHostUpdater.work` (processing.py:347-386) as the list
of Zabbix API mutations it performs on one tick.  `dbHostnames` are the
hostnames of the enabled DB hosts and `allZabbixNames` the hostnames known to
Zabbix at all (the `api.host.get(filter=\x7b"name": hostname\x7d)` lookup in
`enable_host`).  When the failsafe is breached the function returns before
either loop (processing.py:377-379); `disable_host`/`enable_host` perform no
API mutation under `dryrun`. -/
def hostUpdaterWork (dbHostnames : List String) (zabbixHosts : List ZHost)
    (allZabbixNames : List String) (failsafe : Nat) (dryrun : Bool) : List HostCall :=
  let toRemove := hostnamesToRemove dbHostnames zabbixHosts
  let toAdd := hostnamesToAdd dbHostnames zabbixHosts
  if toRemove.length > failsafe ∨ toAdd.length > failsafe then []
  else if dryrun then []
  else
    toRemove.map HostCall.updateDisable ++
      toAdd.map (fun n =>
        if n ∈ allZabbixNames then HostCall.updateEnable n else HostCall.create n)

/-- Modelled from the spec: the failsafe OK file branch of the host
reconciler.  It is absent from src (src/za_hub/processing.py aborts
unconditionally on a failsafe breach; only src/tests/test_utils.py references
the missing `utils.check_failsafe_ok` and the `failsafe_ok_file` setting).
Per the spec, on a breach the reconciler checks the user-supplied OK file: if
present and readable it consumes it (deletes it after acknowledgement) and
proceeds; otherwise it aborts the tick.  Returns the API mutations together
with whether the OK file was deleted. -/
def hostUpdaterWorkOkFile (dbHostnames : List String) (zabbixHosts : List ZHost)
    (allZabbixNames : List String) (failsafe : Nat) (dryrun : Bool)
    (okFilePresent okFileReadable : Bool) : List HostCall × Bool :=
  let toRemove := hostnamesToRemove dbHostnames zabbixHosts
  let toAdd := hostnamesToAdd dbHostnames zabbixHosts
  let proceed : List HostCall :=
    if dryrun then []
    else
      toRemove.map HostCall.updateDisable ++
        toAdd.map (fun n =>
          if n ∈ allZabbixNames then HostCall.updateEnable n else HostCall.create n)
  if toRemove.length > failsafe ∨ toAdd.length > failsafe then
    if okFilePresent && okFileReadable then (proceed, true) else ([], false)
  else (proceed, false)

/-! ## Host-group reconciler managed set (src/za_hub/processing.py:482-491) -/

/-- Embedding of the managed host-group set computed at the start of
`ZabbixHostgroupUpdater.work` (processing.py:484-491).  Line 485 calls
`managed_hostgroup_names.union(set(...siteadmin_hostgroup_map.values()...))`
and discards the returned set (`set.union` is not in-place), so the siteadmin
map values are never added; the model mirrors that. -/
def managedHostgroupNames (propertyHostgroupMap siteadminHostgroupMap : List (String × List String))
    (zabbixHostgroupNames : List String) : Finset String :=
  let fromProperties := ((propertyHostgroupMap.map (fun kv => kv.2)).flatten).toFinset
  let _ := ((siteadminHostgroupMap.map (fun kv => kv.2)).flatten).toFinset
  let withSources := fromProperties ∪
    (zabbixHostgroupNames.filter (fun n => pyStartsWith "Source-" n)).toFinset
  withSources ∪ {"All-hosts"}

/-- The managed host-group set as the spec words it: the union of all values
of the property map, all values of the siteadmin map, every existing group
whose name starts with `Source-`, and the literal `All-hosts`. -/
def managedHostgroupNamesSpec (propertyHostgroupMap siteadminHostgroupMap : List (String × List String))
    (zabbixHostgroupNames : List String) : Finset String :=
  ((propertyHostgroupMap.map (fun kv => kv.2)).flatten).toFinset ∪
    ((siteadminHostgroupMap.map (fun kv => kv.2)).flatten).toFinset ∪
    (zabbixHostgroupNames.filter (fun n => pyStartsWith "Source-" n)).toFinset ∪
    {"All-hosts"}

/-! ## Template reconciler (src/za_hub/processing.py:388-459) -/

/-- Embedding of building a Python dict from a sequence of key/value
assignments (`host_templates[name] = id` in a loop, processing.py:436-438):
an existing key is updated in place, a new key is appended. -/
def buildDict (l : List (String × String)) : List (String × String) :=
  l.foldl
    (fun acc kv =>
      if (acc.lookup kv.1).isSome then
        acc.map (fun e => if e.1 = kv.1 then (e.1, kv.2) else e)
      else acc ++ [kv])
    []

/-- Embedding of Python dict equality for association lists with unique keys:
order-insensitive, same keys mapped to the same values. -/
def pyDictEq (a b : List (String × String)) : Bool :=
  a.all (fun kv => b.lookup kv.1 = some kv.2) && b.all (fun kv => a.lookup kv.1 = some kv.2)

/-- Embedding of
`managed_template_names = set(chain(property_template_map.values())) ∩ zabbix templates`
(processing.py:410-414). -/
def managedTemplateNames (propertyTemplateMap : List (String × List String))
    (zabbixTemplates : List (String × String)) : Finset String :=
  ((propertyTemplateMap.map (fun kv => kv.2)).flatten).toFinset ∩
    (zabbixTemplates.map (fun kv => kv.1)).toFinset

/-- Embedding of the per-host desired template set (processing.py:430-434):
union of the property map entries for each host property, intersected with the
templates that exist in Zabbix. -/
def syncedTemplateNames (propertyTemplateMap : List (String × List String))
    (zabbixTemplates : List (String × String)) (props : List String) : Finset String :=
  (props.foldl
    (fun acc p =>
      match propertyTemplateMap.lookup p with
      | some ts => acc ∪ ts.toFinset
      | none => acc)
    ∅) ∩ (zabbixTemplates.map (fun kv => kv.1)).toFinset

/-- Enumeration of the per-host desired template set in first-encounter order
(the source iterates a Python set, whose order is unspecified; only the
resulting membership is observable).  Contains the same names as
`syncedTemplateNames`. -/
def syncedTemplateList (propertyTemplateMap : List (String × List String))
    (zabbixTemplates : List (String × String)) (props : List String) : List String :=
  dedupKeepFirst []
    ((props.flatMap (fun p => ((propertyTemplateMap.lookup p).getD []))).filter
      (fun t => t ∈ zabbixTemplates.map (fun kv => kv.1)))

/-- A Zabbix API call performed by the template reconciler on one host:
`host.update(templates_clear=...)` or `host.update(templates=...)`. -/
inductive TemplateCall where
  | clear (templates : List (String × String))
  | set (templates : List (String × String))
deriving DecidableEq, Repr

/-- The entries moved into `host_templates_to_remove` by the removal loop
(processing.py:443-447): linked templates that are managed but not desired. -/
def templateRemovals (propertyTemplateMap : List (String × List String))
    (zabbixTemplates : List (String × String)) (props : List String)
    (parentTemplates : List (String × String)) : List (String × String) :=
  (buildDict parentTemplates).filter
    (fun kv => kv.1 ∈ managedTemplateNames propertyTemplateMap zabbixTemplates ∧
      kv.1 ∉ syncedTemplateNames propertyTemplateMap zabbixTemplates props)

/-- The entries left in `host_templates` after the removal loop: the `del`
statements delete exactly the removed entries, preserving order. -/
def templateKept (propertyTemplateMap : List (String × List String))
    (zabbixTemplates : List (String × String)) (props : List String)
    (parentTemplates : List (String × String)) : List (String × String) :=
  (buildDict parentTemplates).filter
    (fun kv => ¬ (kv.1 ∈ managedTemplateNames propertyTemplateMap zabbixTemplates ∧
      kv.1 ∉ syncedTemplateNames propertyTemplateMap zabbixTemplates props))

/-- The state of `host_templates` after the addition loop
(processing.py:448-451): desired templates not yet present are appended with
their Zabbix id. -/
def templateFinal (propertyTemplateMap : List (String × List String))
    (zabbixTemplates : List (String × String)) (props : List String)
    (parentTemplates : List (String × String)) : List (String × String) :=
  let kept := templateKept propertyTemplateMap zabbixTemplates props parentTemplates
  kept ++ ((syncedTemplateList propertyTemplateMap zabbixTemplates props).filter
      (fun t => t ∉ kept.map (fun kv => kv.1))).map
      (fun t => (t, (zabbixTemplates.lookup t).getD ""))

/-- Embedding of the per-host body of `ZabbixTemplateUpdater.work`
(processing.py:430-459) as the list of API calls issued for one managed,
enabled host: remove linked templates that are managed but not desired, add
desired templates not yet linked (set iteration modelled in first-encounter
order), and when the dict changed, issue the clear call (if any removal)
before the set call.  The clear/set helpers perform no API call under
`dryrun`. -/
def templateUpdaterWorkHost (propertyTemplateMap : List (String × List String))
    (zabbixTemplates : List (String × String)) (props : List String)
    (parentTemplates : List (String × String)) (dryrun : Bool) : List TemplateCall :=
  let toRemove := templateRemovals propertyTemplateMap zabbixTemplates props parentTemplates
  let final := templateFinal propertyTemplateMap zabbixTemplates props parentTemplates
  if pyDictEq final (buildDict parentTemplates) then []
  else
    (if toRemove ≠ [] ∧ ¬ dryrun then [TemplateCall.clear toRemove] else []) ++
      (if ¬ dryrun then [TemplateCall.set final] else [])

/-! ## Reference values for the merge claims -/

/-- The merged importance as described by the amended merge rule: the minimum
of the importances that are non-null and non-zero, null when there is none. -/
def minPositiveImportance (a b : Option Nat) : Option Nat :=
  match a, b with
  | none, none => none
  | some x, none => if x = 0 then none else some x
  | none, some y => if y = 0 then none else some y
  | some x, some y =>
      if x = 0 then (if y = 0 then none else some y)
      else if y = 0 then some x else some (min x y)

/-- A source host used to exhibit order dependence of `Host.merge`: agent
interface with endpoint `a.example.com`, inventory location `oslo`, and an
empty-string proxy pattern (a valid regexp, but falsy in Python). -/
def permHostA : Host :=
  { enabled := true
    hostname := "foo.example.com"
    importance := none
    interfaces := [{ details := [], endpoint := "a.example.com", port := "10050", type := 1 }]
    inventory := [("location", "oslo")]
    properties := ∅
    proxy_pattern := some ""
    siteadmins := ∅
    sources := ∅
    tags := ∅ }

/-- A second source host for the same hostname, conflicting with `permHostA`
on the type-1 interface, the `location` inventory key, and the proxy
pattern. -/
def permHostB : Host :=
  { enabled := true
    hostname := "foo.example.com"
    importance := none
    interfaces := [{ details := [], endpoint := "b.example.com", port := "10050", type := 1 }]
    inventory := [("location", "bergen")]
    properties := ∅
    proxy_pattern := none
    siteadmins := ∅
    sources := ∅
    tags := ∅ }

/-- A host whose importance is 0 (most important; `conint(ge=0)` admits it). -/
def impHostZero : Host :=
  { enabled := true
    hostname := "foo.example.com"
    importance := some 0
    interfaces := []
    inventory := []
    properties := ∅
    proxy_pattern := none
    siteadmins := ∅
    sources := ∅
    tags := ∅ }

/-- A host with the same hostname and importance 5. -/
def impHostFive : Host :=
  { enabled := true
    hostname := "foo.example.com"
    importance := some 5
    interfaces := []
    inventory := []
    properties := ∅
    proxy_pattern := none
    siteadmins := ∅
    sources := ∅
    tags := ∅ }

/-! ## Helper lemmas -/

theorem mem_of_mem_dedupKeepFirst {seen l : List String} {x : String}
    (h : x ∈ dedupKeepFirst seen l) : x ∈ l := by
  induction l generalizing seen with
  | nil => simp [dedupKeepFirst] at h
  | cons y ys ih =>
      by_cases hy : y ∈ seen
      · simp only [dedupKeepFirst, if_pos hy] at h
        exact List.mem_cons_of_mem _ (ih h)
      · simp only [dedupKeepFirst, if_neg hy, List.mem_cons] at h
        rcases h with h | h
        · exact h ▸ List.mem_cons_self _ _
        · exact List.mem_cons_of_mem _ (ih h)

theorem mem_dedupKeepFirst_iff {seen l : List String} {x : String} :
    x ∈ dedupKeepFirst seen l ↔ x ∈ l ∧ x ∉ seen := by
  induction l generalizing seen with
  | nil => simp [dedupKeepFirst]
  | cons y ys ih =>
      by_cases hy : y ∈ seen
      · have hval : x = y → x ∈ seen := fun h => h ▸ hy
        simp only [dedupKeepFirst, if_pos hy, ih, List.mem_cons]
        tauto
      · simp only [dedupKeepFirst, if_neg hy, List.mem_cons, ih, List.mem_cons]
        by_cases hxy : x = y
        · subst hxy; tauto
        · tauto

theorem lookup_eq_none_iff {l : List (String × String)} {k : String} :
    l.lookup k = none ↔ k ∉ l.map (fun kv => kv.1) := by
  induction l with
  | nil => simp [List.lookup]
  | cons e es ih =>
      obtain ⟨a, b⟩ := e
      by_cases hk : k = a
      · subst hk; simp [List.lookup]
      · have hbeq : (k == a) = false := by simpa using hk
        simp [List.lookup, hbeq, ih, hk]

theorem mem_of_lookup_eq_some {l : List (String × String)} {k v : String}
    (h : l.lookup k = some v) : (k, v) ∈ l := by
  induction l with
  | nil => simp [List.lookup] at h
  | cons e es ih =>
      obtain ⟨a, b⟩ := e
      by_cases hk : k = a
      · subst hk
        simp only [List.lookup, beq_self_eq_true, Option.some.injEq] at h
        exact h ▸ List.mem_cons_self _ _
      · have hbeq : (k == a) = false := by simpa using hk
        simp only [List.lookup, hbeq] at h
        exact List.mem_cons_of_mem _ (ih h)

/-! ## Claims about the host reconciler failsafe -/

/-- C1: when the number of hostnames to add or to remove exceeds the failsafe,
`ZabbixHostUpdater.work` performs zero Zabbix API mutations that tick — no
`host.update` (disable or enable) and no `host.create`.  (In the embedded
source there is no failsafe OK file branch at all, so no acknowledgement can
occur; the tick is aborted unconditionally.) -/
theorem host_updater_failsafe_zero_mutations
    (dbHostnames : List String) (zabbixHosts : List ZHost)
    (allZabbixNames : List String) (failsafe : Nat) (dryrun : Bool)
    (h : (hostnamesToRemove dbHostnames zabbixHosts).length > failsafe ∨
      (hostnamesToAdd dbHostnames zabbixHosts).length > failsafe) :
    hostUpdaterWork dbHostnames zabbixHosts allZabbixNames failsafe dryrun = [] := by
  simp only [hostUpdaterWork]
  rw [if_pos h]

/-- Witness for C1: with failsafe 0 and one host only in the DB, the breach
condition holds and the reconciler performs no mutation. -/
theorem host_updater_failsafe_zero_mutations_witness :
    ((hostnamesToRemove ["foo.example.com"] []).length > 0 ∨
      (hostnamesToAdd ["foo.example.com"] []).length > 0) ∧
    hostUpdaterWork ["foo.example.com"] [] [] 0 false = [] :=
  ⟨by decide,
    host_updater_failsafe_zero_mutations ["foo.example.com"] [] [] 0 false (by decide)⟩

/-- C5: when the failsafe threshold is breached and the failsafe OK file
exists and is readable, the (spec-modelled) host reconciler consumes the file
and performs the pending removals and additions in that same tick. -/
theorem host_updater_ok_file_consumes_and_proceeds
    (dbHostnames : List String) (zabbixHosts : List ZHost)
    (allZabbixNames : List String) (failsafe : Nat)
    (h : (hostnamesToRemove dbHostnames zabbixHosts).length > failsafe ∨
      (hostnamesToAdd dbHostnames zabbixHosts).length > failsafe) :
    hostUpdaterWorkOkFile dbHostnames zabbixHosts allZabbixNames failsafe false true true =
      ((hostnamesToRemove dbHostnames zabbixHosts).map HostCall.updateDisable ++
        (hostnamesToAdd dbHostnames zabbixHosts).map (fun n =>
          if n ∈ allZabbixNames then HostCall.updateEnable n else HostCall.create n),
        true) := by
  simp only [hostUpdaterWorkOkFile]
  rw [if_pos h]
  simp

/-- Witness for C5: with failsafe 0 and one pending addition, the OK file is
consumed and the host is created. -/
theorem host_updater_ok_file_consumes_and_proceeds_witness :
    ((hostnamesToRemove ["foo.example.com"] []).length > 0 ∨
      (hostnamesToAdd ["foo.example.com"] []).length > 0) ∧
    hostUpdaterWorkOkFile ["foo.example.com"] [] [] 0 false true true =
      ((hostnamesToRemove ["foo.example.com"] []).map HostCall.updateDisable ++
        (hostnamesToAdd ["foo.example.com"] []).map (fun n =>
          if n ∈ ([] : List String) then HostCall.updateEnable n else HostCall.create n),
        true) :=
  ⟨by decide,
    host_updater_ok_file_consumes_and_proceeds ["foo.example.com"] [] [] 0 (by decide)⟩

/-! ## Claim about the host-group managed set -/

/-- C2: the claim fails on the code.  `ZabbixHostgroupUpdater.work` line 485
discards the result of `set.union`, so a group name that appears only in the
siteadmin→hostgroup map values is not in the managed set, although the claim
(and the spec's union) includes it. -/
theorem hostgroup_managed_set_misses_siteadmin_groups :
    "Hostgroup-admin1-hosts" ∈
      ((([("admin1@example.com", ["Hostgroup-admin1-hosts"])].map
        (fun kv => kv.2)).flatten).toFinset : Finset String) ∧
    "Hostgroup-admin1-hosts" ∉
      managedHostgroupNames [] [("admin1@example.com", ["Hostgroup-admin1-hosts"])] [] ∧
    "Hostgroup-admin1-hosts" ∈
      managedHostgroupNamesSpec [] [("admin1@example.com", ["Hostgroup-admin1-hosts"])] [] := by
  decide

/-! ## Claims about host merging -/

theorem mergeImportance_eq_minPositive (a b : Option Nat) :
    mergeImportance a b = minPositiveImportance a b := by
  rcases a with _ | x <;> rcases b with _ | y
  · rfl
  · by_cases hy : y = 0 <;> simp [mergeImportance, minPositiveImportance, hy]
  · by_cases hx : x = 0 <;> simp [mergeImportance, minPositiveImportance, hx]
  · by_cases hx : x = 0 <;> by_cases hy : y = 0 <;>
      simp [mergeImportance, minPositiveImportance, hx, hy]

theorem minPositive_comm (a b : Option Nat) :
    minPositiveImportance a b = minPositiveImportance b a := by
  rcases a with _ | x <;> rcases b with _ | y <;> simp only [minPositiveImportance]
  split_ifs <;> simp_all [Nat.min_comm]

theorem minPositive_assoc (a b c : Option Nat) :
    minPositiveImportance (minPositiveImportance a b) c =
      minPositiveImportance a (minPositiveImportance b c) := by
  rcases a with _ | x <;> rcases b with _ | y <;> rcases c with _ | z <;>
    simp only [minPositiveImportance] <;> split_ifs <;>
    simp_all [minPositiveImportance]

theorem mergeImportance_comm (a b : Option Nat) :
    mergeImportance a b = mergeImportance b a := by
  rw [mergeImportance_eq_minPositive, mergeImportance_eq_minPositive, minPositive_comm]

theorem mergeImportance_assoc (a b c : Option Nat) :
    mergeImportance (mergeImportance a b) c = mergeImportance a (mergeImportance b c) := by
  simp only [mergeImportance_eq_minPositive]
  exact minPositive_assoc a b c

theorem foldl_comm_assoc_perm {α : Type} (op : α → α → α)
    (hc : ∀ a b, op a b = op b a) (ha : ∀ a b c, op (op a b) c = op a (op b c)) :
    ∀ {l₁ l₂ : List α}, l₁.Perm l₂ → ∀ b, l₁.foldl op b = l₂.foldl op b := by
  intro l₁ l₂ p
  induction p with
  | nil => intro b; rfl
  | cons x p ih => intro b; simp only [List.foldl_cons]; exact ih (op b x)
  | swap x y l =>
      intro b
      simp only [List.foldl_cons]
      rw [ha b y x, hc y x, ← ha b x y]
  | trans p q ih1 ih2 => intro b; rw [ih1 b, ih2 b]

/-- A left fold of a binary operation over a non-empty list, seeded with its
head: the shape of the source-merger fold over the per-source rows. -/
def redList {α : Type} (op : α → α → α) : List α → Option α
  | [] => none
  | h :: t => some (t.foldl op h)

theorem redList_perm {α : Type} (op : α → α → α)
    (hc : ∀ a b, op a b = op b a) (ha : ∀ a b c, op (op a b) c = op a (op b c)) :
    ∀ {l₁ l₂ : List α}, l₁.Perm l₂ → redList op l₁ = redList op l₂ := by
  intro l₁ l₂ p
  induction p with
  | nil => rfl
  | cons x p ih =>
      simp only [redList]
      rw [foldl_comm_assoc_perm op hc ha p]
  | swap x y l =>
      simp only [redList, List.foldl_cons]
      rw [hc y x]
  | trans p q ih1 ih2 => rw [ih1, ih2]

theorem proj_foldl_merge {β : Type} (proj : Host → β) (op : β → β → β)
    (hm : ∀ a b, proj (Host.merge a b) = op (proj a) (proj b)) :
    ∀ (t : List Host) (h : Host),
      proj (t.foldl Host.merge h) = (t.map proj).foldl op (proj h) := by
  intro t
  induction t with
  | nil => intro h; rfl
  | cons x xs ih =>
      intro h
      simp only [List.foldl_cons, List.map_cons]
      rw [ih, hm]

theorem mergeAll_proj_eq {β : Type} (proj : Host → β) (op : β → β → β)
    (hm : ∀ a b, proj (Host.merge a b) = op (proj a) (proj b)) (l : List Host) :
    (mergeAll l).map proj = redList op (l.map proj) := by
  cases l with
  | nil => rfl
  | cons h t =>
      show some (proj (t.foldl Host.merge h)) = some ((t.map proj).foldl op (proj h))
      rw [proj_foldl_merge proj op hm]

theorem mergeAll_proj_perm {β : Type} (proj : Host → β) (op : β → β → β)
    (hm : ∀ a b, proj (Host.merge a b) = op (proj a) (proj b))
    (hc : ∀ a b, op a b = op b a) (ha : ∀ a b c, op (op a b) c = op a (op b c))
    {l₁ l₂ : List Host} (p : l₁.Perm l₂) :
    (mergeAll l₁).map proj = (mergeAll l₂).map proj := by
  rw [mergeAll_proj_eq proj op hm, mergeAll_proj_eq proj op hm,
    redList_perm op hc ha (p.map proj)]

theorem foldl_merge_hostname (t : List Host) (h : Host) :
    (t.foldl Host.merge h).hostname = h.hostname := by
  induction t generalizing h with
  | nil => rfl
  | cons x xs ih =>
      simp only [List.foldl_cons]
      rw [ih]
      rfl

/-- C3 counterexample: two hosts sharing a hostname but conflicting on the
type-1 interface, the `location` inventory key, and the proxy pattern merge
to different Hosts in the two fold orders, so folding `Host.merge` over a
multiset is not order-independent. -/
theorem merge_fold_order_dependent :
    permHostA.hostname = permHostB.hostname ∧
    mergeAll [permHostA, permHostB] ≠ mergeAll [permHostB, permHostA] ∧
    (Host.merge permHostA permHostB).interfaces ≠ (Host.merge permHostB permHostA).interfaces ∧
    (Host.merge permHostA permHostB).inventory ≠ (Host.merge permHostB permHostA).inventory ∧
    (Host.merge permHostA permHostB).proxy_pattern ≠ (Host.merge permHostB permHostA).proxy_pattern := by
  decide

/-- C3 amended: folding `Host.merge` over a multiset of Hosts sharing a
hostname yields, in any order, the same `hostname`, `enabled`, `importance`,
`properties`, `siteadmins`, `sources` and `tags`; the `interfaces`,
`inventory` and `proxy_pattern` fields can depend on the fold order when
sources conflict (same interface type with different interfaces, same
inventory key with different values, or an empty-string proxy pattern). -/
theorem merge_fold_perm_invariant (h₁ h₂ : Host) (t₁ t₂ : List Host)
    (p : (h₁ :: t₁).Perm (h₂ :: t₂))
    (hn : ∀ x ∈ h₁ :: t₁, x.hostname = h₁.hostname) :
    (t₁.foldl Host.merge h₁).hostname = (t₂.foldl Host.merge h₂).hostname ∧
    (t₁.foldl Host.merge h₁).enabled = (t₂.foldl Host.merge h₂).enabled ∧
    (t₁.foldl Host.merge h₁).importance = (t₂.foldl Host.merge h₂).importance ∧
    (t₁.foldl Host.merge h₁).properties = (t₂.foldl Host.merge h₂).properties ∧
    (t₁.foldl Host.merge h₁).siteadmins = (t₂.foldl Host.merge h₂).siteadmins ∧
    (t₁.foldl Host.merge h₁).sources = (t₂.foldl Host.merge h₂).sources ∧
    (t₁.foldl Host.merge h₁).tags = (t₂.foldl Host.merge h₂).tags := by
  have key : ∀ {β : Type} (proj : Host → β) (op : β → β → β),
      (∀ a b, proj (Host.merge a b) = op (proj a) (proj b)) →
      (∀ a b, op a b = op b a) → (∀ a b c, op (op a b) c = op a (op b c)) →
      proj (t₁.foldl Host.merge h₁) = proj (t₂.foldl Host.merge h₂) := by
    intro β proj op hm hc ha
    have e := mergeAll_proj_perm proj op hm hc ha p
    simpa [mergeAll] using e
  refine ⟨?_,
    key (fun h => h.enabled) (· || ·) (fun a b => rfl) Bool.or_comm Bool.or_assoc,
    key (fun h => h.importance) mergeImportance (fun a b => rfl)
      mergeImportance_comm mergeImportance_assoc,
    key (fun h => h.properties) (· ∪ ·) (fun a b => rfl)
      Finset.union_comm Finset.union_assoc,
    key (fun h => h.siteadmins) (· ∪ ·) (fun a b => rfl)
      Finset.union_comm Finset.union_assoc,
    key (fun h => h.sources) (· ∪ ·) (fun a b => rfl)
      Finset.union_comm Finset.union_assoc,
    key (fun h => h.tags) (· ∪ ·) (fun a b => rfl)
      Finset.union_comm Finset.union_assoc⟩
  rw [foldl_merge_hostname, foldl_merge_hostname]
  exact (hn h₂ (p.symm.subset (List.mem_cons_self _ _))).symm

/-- Witness for C3: the two orders of merging `permHostA` and `permHostB`
agree on all fields other than interfaces, inventory and proxy pattern. -/
theorem merge_fold_perm_invariant_witness :
    ((permHostA :: [permHostB]).Perm (permHostB :: [permHostA])) ∧
    (∀ x ∈ permHostA :: [permHostB], x.hostname = permHostA.hostname) ∧
    (([permHostB].foldl Host.merge permHostA).hostname =
        ([permHostA].foldl Host.merge permHostB).hostname ∧
      ([permHostB].foldl Host.merge permHostA).enabled =
        ([permHostA].foldl Host.merge permHostB).enabled ∧
      ([permHostB].foldl Host.merge permHostA).importance =
        ([permHostA].foldl Host.merge permHostB).importance ∧
      ([permHostB].foldl Host.merge permHostA).properties =
        ([permHostA].foldl Host.merge permHostB).properties ∧
      ([permHostB].foldl Host.merge permHostA).siteadmins =
        ([permHostA].foldl Host.merge permHostB).siteadmins ∧
      ([permHostB].foldl Host.merge permHostA).sources =
        ([permHostA].foldl Host.merge permHostB).sources ∧
      ([permHostB].foldl Host.merge permHostA).tags =
        ([permHostA].foldl Host.merge permHostB).tags) :=
  ⟨List.Perm.swap permHostB permHostA [], by decide,
    merge_fold_perm_invariant permHostA permHostB [permHostB] [permHostA]
      (List.Perm.swap permHostB permHostA []) (by decide)⟩

/-- C4 counterexample: merging a host of importance 0 with one of importance 5
yields importance 5, not the minimum 0 of the non-null values: the truthiness
filter on models.py:119 drops the importance 0. -/
theorem merge_importance_zero_dropped :
    impHostZero.importance = some 0 ∧ impHostFive.importance = some 5 ∧
    (Host.merge impHostZero impHostFive).importance = some 5 ∧
    (Host.merge impHostZero impHostFive).importance ≠ some 0 := by
  decide

/-- C4 amended: after `h.merge(o)` the importance of `h` is the minimum of the
importances that were non-null and non-zero before the call, and it is null
exactly when each of the two was null or zero (an importance of 0 is treated
as unset by the truthiness filter). -/
theorem merge_importance_min_positive (h o : Host) :
    (Host.merge h o).importance = minPositiveImportance h.importance o.importance ∧
    ((Host.merge h o).importance = none ↔
      (h.importance = none ∨ h.importance = some 0) ∧
      (o.importance = none ∨ o.importance = some 0)) := by
  refine ⟨mergeImportance_eq_minPositive _ _, ?_⟩
  rw [show (Host.merge h o).importance = mergeImportance h.importance o.importance from rfl,
    mergeImportance_eq_minPositive]
  rcases h.importance with _ | x <;> rcases o.importance with _ | y <;>
    simp [minPositiveImportance]
  all_goals split_ifs <;> simp_all

/-- C9: `Host.merge` leaves the hostname of the receiver unchanged, even when
the other host's hostname differs. -/
theorem merge_preserves_hostname (h o : Host) :
    (Host.merge h o).hostname = h.hostname := rfl

/-! ## Claim about tag conversion -/

/-- C10: converting a set of ZAC tags to Zabbix tag dicts and back yields the
original set. -/
theorem zac_tags_roundtrip (s : Finset (String × String)) :
    zabbix_tags2zac_tags (zac_tags2zabbix_tags s.toList) = s := by
  simp only [zabbix_tags2zac_tags, zac_tags2zabbix_tags, List.map_map]
  have : ((fun t : ZabbixTag => (t.tag, t.value)) ∘
      (fun t : String × String => ({ tag := t.1, value := t.2 } : ZabbixTag))) = id := by
    funext t; rfl
  rw [this, List.map_id, Finset.toList_toFinset]

/-! ## Claim about map file parsing -/

theorem parseMapLine_sound {line k : String} {vs : List String}
    (h : parseMapLine line = some (k, vs)) : k ≠ "" ∧ vs ≠ [] ∧ ∀ v ∈ vs, v ≠ "" := by
  simp only [parseMapLine] at h
  split at h
  · exact absurd h (by simp)
  · split at h
    · exact absurd h (by simp)
    · split at h
      · exact absurd h (by simp)
      · split at h
        · exact absurd h (by simp)
        · rename_i hkey hvals
          rw [Option.some.injEq, Prod.mk.injEq] at h
          obtain ⟨rfl, rfl⟩ := h
          refine ⟨hkey, hvals, ?_⟩
          intro v hv
          simpa using (List.mem_filter.1 hv).2

theorem insertMapEntry_good {m : List (String × List String)} {key : String}
    {values : List String}
    (hm : ∀ e ∈ m, e.1 ≠ "" ∧ ∀ v ∈ e.2, v ≠ "")
    (hk : key ≠ "") (hv : ∀ v ∈ values, v ≠ "") :
    ∀ e ∈ insertMapEntry m key values, e.1 ≠ "" ∧ ∀ v ∈ e.2, v ≠ "" := by
  induction m with
  | nil =>
      intro e he
      simp only [insertMapEntry, List.mem_singleton] at he
      subst he
      exact ⟨hk, hv⟩
  | cons f fs ih =>
      obtain ⟨a, b⟩ := f
      intro e he
      by_cases hak : a = key
      · simp only [insertMapEntry, if_pos hak] at he
        rcases List.mem_cons.1 he with rfl | he'
        · refine ⟨hak ▸ hk, ?_⟩
          intro v hvm
          rcases List.mem_append.1 hvm with hvm | hvm
          · exact (hm (a, b) (List.mem_cons_self _ _)).2 v hvm
          · exact hv v hvm
        · exact hm e (List.mem_cons_of_mem _ he')
      · simp only [insertMapEntry, if_neg hak] at he
        rcases List.mem_cons.1 he with rfl | he'
        · exact hm (a, b) (List.mem_cons_self _ _)
        · exact ih (fun e he => hm e (List.mem_cons_of_mem _ he)) e he'

theorem read_map_fold_good (lines : List String) :
    ∀ (acc : List (String × List String)),
    (∀ e ∈ acc, e.1 ≠ "" ∧ ∀ v ∈ e.2, v ≠ "") →
    ∀ e ∈ lines.foldl
      (fun m line =>
        match parseMapLine line with
        | none => m
        | some (k, vs) => insertMapEntry m k vs) acc,
      e.1 ≠ "" ∧ ∀ v ∈ e.2, v ≠ "" := by
  induction lines with
  | nil => intro acc hacc; simpa using hacc
  | cons l ls ih =>
      intro acc hacc
      simp only [List.foldl_cons]
      cases hp : parseMapLine l with
      | none => simp only [hp]; exact ih acc hacc
      | some kv =>
          obtain ⟨k, vs⟩ := kv
          simp only [hp]
          obtain ⟨h1, _, h3⟩ := parseMapLine_sound hp
          exact ih _ (insertMapEntry_good hacc h1 h3)

/-- C7: `read_map_file` is total over any text input (the embedding returns a
value for every list of lines; every `ValueError` raised while parsing a line
is caught by the source and the line skipped), and the returned mapping has
no empty key and no empty string among the values. -/
theorem read_map_file_no_empty (lines : List String) (k : String) (vs : List String)
    (h : (k, vs) ∈ read_map_file lines) : k ≠ "" ∧ ∀ v ∈ vs, v ≠ "" := by
  simp only [read_map_file, List.mem_map] at h
  obtain ⟨⟨k', vs'⟩, hmem, heq⟩ := h
  have hg := read_map_fold_good lines [] (by simp) _ hmem
  rw [Prod.mk.injEq] at heq
  obtain ⟨rfl, rfl⟩ := heq
  exact ⟨hg.1, fun v hv => hg.2 v (mem_of_mem_dedupKeepFirst hv)⟩

/-- Witness for C7: the file `a: b` parses to the entry `("a", ["b"])`, whose
key and values are non-empty. -/
theorem read_map_file_no_empty_witness :
    (("a", ["b"]) ∈ read_map_file ["a: b"]) ∧
    ("a" ≠ "" ∧ ∀ v ∈ ["b"], v ≠ "") :=
  ⟨by decide, read_map_file_no_empty ["a: b"] "a" ["b"] (by decide)⟩

/-! ## Claim about the template reconciler -/

theorem mem_syncedFoldAux (ptm : List (String × List String)) {props : List String}
    {acc : Finset String} {t : String} :
    t ∈ props.foldl
      (fun acc p =>
        match ptm.lookup p with
        | some ts => acc ∪ ts.toFinset
        | none => acc) acc ↔
    t ∈ acc ∨ ∃ p ∈ props, t ∈ (ptm.lookup p).getD [] := by
  induction props generalizing acc with
  | nil => simp
  | cons p ps ih =>
      have hstep : (match ptm.lookup p with
          | some ts => acc ∪ ts.toFinset
          | none => acc) = acc ∪ ((ptm.lookup p).getD []).toFinset := by
        cases ptm.lookup p <;> simp
      simp only [List.foldl_cons, hstep, ih, Finset.mem_union, List.mem_toFinset]
      constructor
      · rintro ((h | h) | ⟨q, hq, hqt⟩)
        · exact Or.inl h
        · exact Or.inr ⟨p, List.mem_cons_self _ _, h⟩
        · exact Or.inr ⟨q, List.mem_cons_of_mem _ hq, hqt⟩
      · rintro (h | ⟨q, hq, hqt⟩)
        · exact Or.inl (Or.inl h)
        · rcases List.mem_cons.1 hq with rfl | hq'
          · exact Or.inl (Or.inr hqt)
          · exact Or.inr ⟨q, hq', hqt⟩

theorem mem_syncedTemplateList_iff (ptm : List (String × List String))
    (ztempl : List (String × String)) (props : List String) (t : String) :
    t ∈ syncedTemplateList ptm ztempl props ↔ t ∈ syncedTemplateNames ptm ztempl props := by
  rw [syncedTemplateList, mem_dedupKeepFirst_iff, syncedTemplateNames, Finset.mem_inter]
  simp only [List.not_mem_nil, not_false_iff, and_true, List.mem_filter,
    List.mem_flatMap, List.mem_toFinset, mem_syncedFoldAux, Finset.not_mem_empty,
    false_or, decide_eq_true_eq]

/-- C8: on a template-reconciler tick, a linked template that is in the
managed set but not in the host's desired set is removed through the
unlink-and-clear call, the clear call is issued before the call that links
the new template set, and every desired template that is already linked is
kept in the final linked set. -/
theorem template_clear_precedes_set
    (ptm : List (String × List String)) (ztempl : List (String × String))
    (props : List String) (parentTemplates : List (String × String))
    (t tid : String)
    (hlink : (t, tid) ∈ buildDict parentTemplates)
    (hman : t ∈ managedTemplateNames ptm ztempl)
    (hsyn : t ∉ syncedTemplateNames ptm ztempl props) :
    templateUpdaterWorkHost ptm ztempl props parentTemplates false =
      [TemplateCall.clear (templateRemovals ptm ztempl props parentTemplates),
        TemplateCall.set (templateFinal ptm ztempl props parentTemplates)] ∧
    (t, tid) ∈ templateRemovals ptm ztempl props parentTemplates ∧
    t ∉ (templateFinal ptm ztempl props parentTemplates).map (fun kv => kv.1) ∧
    ∀ s ∈ syncedTemplateNames ptm ztempl props,
      s ∈ (buildDict parentTemplates).map (fun kv => kv.1) →
      s ∈ (templateFinal ptm ztempl props parentTemplates).map (fun kv => kv.1) := by
  have hrem : (t, tid) ∈ templateRemovals ptm ztempl props parentTemplates :=
    List.mem_filter.2 ⟨hlink, by simp [hman, hsyn]⟩
  have hkeptkeys : t ∉ (templateKept ptm ztempl props parentTemplates).map (fun kv => kv.1) := by
    intro hmem
    obtain ⟨⟨a, b⟩, hab, ha⟩ := List.mem_map.1 hmem
    obtain rfl : a = t := ha
    have hpred := (List.mem_filter.1 hab).2
    simp only [decide_eq_true_eq, not_and, not_not] at hpred
    exact hsyn (hpred hman)
  have hfinkeys : t ∉ (templateFinal ptm ztempl props parentTemplates).map (fun kv => kv.1) := by
    rw [templateFinal]
    simp only [List.map_append, List.mem_append, List.map_map]
    rintro (h | h)
    · exact hkeptkeys h
    · simp only [Function.comp, List.mem_map, List.mem_filter] at h
      obtain ⟨s, ⟨hs, _⟩, rfl⟩ := h
      exact hsyn ((mem_syncedTemplateList_iff ptm ztempl props _).1 hs)
  have hne : ¬ (pyDictEq (templateFinal ptm ztempl props parentTemplates)
      (buildDict parentTemplates) = true) := by
    intro htrue
    simp only [pyDictEq, Bool.and_eq_true, List.all_eq_true] at htrue
    have h2 := htrue.2 (t, tid) hlink
    rw [decide_eq_true_eq] at h2
    rw [lookup_eq_none_iff.2 hfinkeys] at h2
    exact Option.noConfusion h2
  refine ⟨?_, hrem, hfinkeys, ?_⟩
  · simp only [templateUpdaterWorkHost]
    rw [if_neg hne, if_pos ⟨List.ne_nil_of_mem hrem, by simp⟩,
      if_pos (show ¬false = true by simp)]
    rfl
  · intro s hsyn' _
    rw [templateFinal]
    simp only [List.map_append, List.mem_append, List.map_map]
    by_cases hk : s ∈ (templateKept ptm ztempl props parentTemplates).map (fun kv => kv.1)
    · exact Or.inl hk
    · right
      have hsl : s ∈ syncedTemplateList ptm ztempl props :=
        (mem_syncedTemplateList_iff ptm ztempl props s).2 hsyn'
      simp only [Function.comp, List.mem_map, List.mem_filter]
      exact ⟨s, ⟨hsl, by simpa using hk⟩, rfl⟩

/-- Witness for C8: the host has property `p1` mapping to template `Ta`;
templates `Ta` and `Tb` are linked and both managed; `Tb` is cleared before
the new set `Ta` is linked. -/
theorem template_clear_precedes_set_witness :
    (("Tb", "2") ∈ buildDict [("Ta", "1"), ("Tb", "2")]) ∧
    ("Tb" ∈ managedTemplateNames [("p1", ["Ta"]), ("p2", ["Tb"])] [("Ta", "1"), ("Tb", "2")]) ∧
    ("Tb" ∉ syncedTemplateNames [("p1", ["Ta"]), ("p2", ["Tb"])] [("Ta", "1"), ("Tb", "2")] ["p1"]) ∧
    (templateUpdaterWorkHost [("p1", ["Ta"]), ("p2", ["Tb"])] [("Ta", "1"), ("Tb", "2")]
        ["p1"] [("Ta", "1"), ("Tb", "2")] false =
      [TemplateCall.clear (templateRemovals [("p1", ["Ta"]), ("p2", ["Tb"])]
          [("Ta", "1"), ("Tb", "2")] ["p1"] [("Ta", "1"), ("Tb", "2")]),
        TemplateCall.set (templateFinal [("p1", ["Ta"]), ("p2", ["Tb"])]
          [("Ta", "1"), ("Tb", "2")] ["p1"] [("Ta", "1"), ("Tb", "2")])] ∧
      ("Tb", "2") ∈ templateRemovals [("p1", ["Ta"]), ("p2", ["Tb"])]
        [("Ta", "1"), ("Tb", "2")] ["p1"] [("Ta", "1"), ("Tb", "2")] ∧
      "Tb" ∉ (templateFinal [("p1", ["Ta"]), ("p2", ["Tb"])]
        [("Ta", "1"), ("Tb", "2")] ["p1"] [("Ta", "1"), ("Tb", "2")]).map (fun kv => kv.1) ∧
      ∀ s ∈ syncedTemplateNames [("p1", ["Ta"]), ("p2", ["Tb"])] [("Ta", "1"), ("Tb", "2")] ["p1"],
        s ∈ (buildDict [("Ta", "1"), ("Tb", "2")]).map (fun kv => kv.1) →
        s ∈ (templateFinal [("p1", ["Ta"]), ("p2", ["Tb"])]
          [("Ta", "1"), ("Tb", "2")] ["p1"] [("Ta", "1"), ("Tb", "2")]).map (fun kv => kv.1)) :=
  ⟨by decide, by decide, by decide,
    template_clear_precedes_set [("p1", ["Ta"]), ("p2", ["Tb"])] [("Ta", "1"), ("Tb", "2")]
      ["p1"] [("Ta", "1"), ("Tb", "2")] "Tb" "2" (by decide) (by decide) (by decide)⟩

/-! ## Claims about semantic version parsing -/

/-- C6 counterexample: `str_to_semver` does not map `"1.2.3rc1"` to `(1,2,3)`:
it keeps every digit of the patch component, producing `(1,2,31)`. -/
theorem str_to_semver_rc_counterexample :
    str_to_semver "1.2.3rc1" ≠ Except.ok (1, 2, 3) := by
  intro h
  rw [show str_to_semver "1.2.3rc1" = Except.ok (1, 2, 31) from rfl] at h
  simp at h

/-- C6 amended: `str_to_semver` maps `"1.2.3rc1"` to `(1,2,31)` (all digit
characters of the patch component are kept, so the digit of `rc1` is
concatenated), and raises on `"1.2"` and on `"1..3"`. -/
theorem str_to_semver_examples :
    str_to_semver "1.2.3rc1" = Except.ok (1, 2, 31) ∧
    (str_to_semver "1.2").toOption = none ∧
    (str_to_semver "1..3").toOption = none :=
  ⟨rfl, rfl, rfl⟩

end Zac
